import Mathlib

/-!
Shallow embedding of the key-derivation library in `src/typescript/cli.ts`
(the strict HKDF-based module: `strip0x`, `hexToBytesStrict`, `toBytes`,
`bytesToHex0x`, `uintToFixedBE`, `parseNumericId`, `encodeChainId`,
`encodeTimelock`, `createInitialKeyFromSignature`,
`deriveKeyFromInitialKeyAndTimelock`).

Modelling conventions:

* JavaScript strings are lists of UTF-16 code units, `List Nat`
  (`"0x"` is `[48, 120]`, `"ab"` is `[97, 98]`).
* Byte sequences (`Uint8Array` / `Buffer`) are `List Nat`, each element
  intended in `0 .. 255`; the encoders produced here establish that bound.
* JavaScript `bigint` values are `Int`.  Fallible code returns
  `Except Err α`; each `throw` site of the source maps to one `Err`
  constructor, following the error taxonomy of the specification.
* `hkdfSync("sha256", ikm, salt, info, len)` from node `crypto` is an
  external primitive; the derivation functions take it as an explicit
  function parameter `hkdf`, so every theorem below quantifies over it.
  The one fact of the real primitive some theorems assume is stated as a
  hypothesis: its output is a byte array (elements `< 256`).
-/

/-- Error kinds, one per distinct throw site of the source that the
specification names. -/
inductive Err where
  | emptyInput
  | oddLength
  | invalidHex
  | emptyHex
  | nonNumeric
  | negativeValue
  | nonInteger
  | overflow
  | rangeExceeded
  | nonPositiveOption
  | signatureTooShort
  | wrongKeyLength
  | hkdfOutputLength
deriving DecidableEq, Repr

deriving instance DecidableEq for Except

/-- JavaScript strings as lists of UTF-16 code units. -/
abbrev JSStr := List Nat

/-- The code units removed by JavaScript `String.prototype.trim`
(WhiteSpace and LineTerminator code points). -/
def isWSCode (c : Nat) : Bool :=
  c = 9 ∨ c = 10 ∨ c = 11 ∨ c = 12 ∨ c = 13 ∨ c = 32 ∨ c = 160 ∨
  c = 0x1680 ∨ (0x2000 ≤ c ∧ c ≤ 0x200A) ∨ c = 0x2028 ∨ c = 0x2029 ∨
  c = 0x202F ∨ c = 0x205F ∨ c = 0x3000 ∨ c = 0xFEFF

/-- ASCII decimal digit `0`-`9` (the regex `\d`). -/
def isDigitCode (c : Nat) : Bool := 48 ≤ c ∧ c ≤ 57

/-- ASCII hex digit `[0-9a-fA-F]`. -/
def isHexDigitCode (c : Nat) : Bool :=
  (48 ≤ c ∧ c ≤ 57) ∨ (97 ≤ c ∧ c ≤ 102) ∨ (65 ≤ c ∧ c ≤ 70)

/-- Lowercase-canonical hex digit `[0-9a-f]`. -/
def isLowerHexCode (c : Nat) : Bool :=
  (48 ≤ c ∧ c ≤ 57) ∨ (97 ≤ c ∧ c ≤ 102)

/-- Value of a hex digit code unit, `none` for a non-hex character. -/
def hexDigitVal? (c : Nat) : Option Nat :=
  if 48 ≤ c ∧ c ≤ 57 then some (c - 48)
  else if 97 ≤ c ∧ c ≤ 102 then some (c - 87)
  else if 65 ≤ c ∧ c ≤ 70 then some (c - 55)
  else none

/-- Code unit of the lowercase hex digit for a nibble value (`hex.encode`
of `@scure/base` emits lowercase). -/
def nibChar (n : Nat) : Nat := if n < 10 then n + 48 else n + 87

/-- `String.prototype.trim`: drop leading and trailing whitespace. -/
def trimStr (s : JSStr) : JSStr :=
  ((s.dropWhile isWSCode).reverse.dropWhile isWSCode).reverse

/-- `strip0x`: trim, then remove one leading `0x` (`[48, 120]`) or `0X`
(`[48, 88]`). -/
def strip0x (s : JSStr) : JSStr :=
  let t := trimStr s
  if t.take 2 = [48, 120] ∨ t.take 2 = [48, 88] then t.drop 2 else t

/-- `hex.decode` of `@scure/base` on an even-length string: consume the
code units two at a time, failing on any non-hex character. -/
def hexDecodePairs : List Nat → Option (List Nat)
  | [] => some []
  | [_] => none
  | c1 :: c2 :: rest =>
    match hexDigitVal? c1, hexDigitVal? c2, hexDecodePairs rest with
    | some h, some l, some bs => some ((16 * h + l) :: bs)
    | _, _, _ => none

/-- `hexToBytesStrict`: strip `0x`, then require non-empty, even length,
and only hex digits. -/
def hexToBytesStrict (input : JSStr) : Except Err (List Nat) :=
  let clean := strip0x input
  if clean.length = 0 then .error .emptyInput
  else if clean.length % 2 ≠ 0 then .error .oddLength
  else
    match hexDecodePairs clean with
    | some bs => .ok bs
    | none => .error .invalidHex

/-- A `BinaryLike | string` argument: hex text or raw bytes. -/
inductive BytesInput where
  | str (s : JSStr)
  | bytes (b : List Nat)

/-- `toBytes`: strings are decoded as strict hex, binary views pass
through unchanged. -/
def toBytes : BytesInput → Except Err (List Nat)
  | .str s => hexToBytesStrict s
  | .bytes b => .ok b

/-- `hex.encode` of `@scure/base`: two lowercase hex code units per
byte, in order. -/
def hexEncodeBytes : List Nat → List Nat
  | [] => []
  | b :: r => nibChar (b / 16) :: nibChar (b % 16) :: hexEncodeBytes r

/-- `bytesToHex0x`: `"0x"` followed by the lowercase hex encoding. -/
def bytesToHex0x (bs : List Nat) : JSStr :=
  48 :: 120 :: hexEncodeBytes bs

/-- Value of a decimal digit string (`BigInt` on a `^\d+$` match). -/
def parseDecNat (s : JSStr) : Nat :=
  s.foldl (fun a c => 10 * a + (c - 48)) 0

/-- Value of a hex digit string, ignoring invalid characters; meaningful
only under an all-hex-digits hypothesis. -/
def hexValNat (s : JSStr) : Nat :=
  s.foldl (fun a c => 16 * a + ((hexDigitVal? c).getD 0)) 0

/-- `BigInt("0x" + part)`: succeeds exactly when every character of
`part` is a hex digit, accumulating left to right. -/
def parseHexNat? : List Nat → Nat → Option Nat
  | [], acc => some acc
  | c :: r, acc =>
    match hexDigitVal? c with
    | some d => parseHexNat? r (16 * acc + d)
    | none => none

/-- String branch of `parseNumericId`: trim; reject empty; `0x`/`0X`
prefixed text is parsed as hex (non-empty remainder required), otherwise
the text must match `^\d+$` and is parsed as decimal. -/
def parseNumericStr (s : JSStr) : Except Err Int :=
  let t := trimStr s
  if t.length = 0 then .error .emptyInput
  else if t.take 2 = [48, 120] ∨ t.take 2 = [48, 88] then
    let hexPart := t.drop 2
    if hexPart.length = 0 then .error .emptyHex
    else
      match parseHexNat? hexPart 0 with
      | some v => .ok (v : Int)
      | none => .error .nonNumeric
  else if t.all isDigitCode then .ok ((parseDecNat t : Nat) : Int)
  else .error .nonNumeric

/-- A `string | number | bigint` numeric argument.  The `num` variant
models a finite, integral JavaScript number by its integer value. -/
inductive NumericInput where
  | big (v : Int)
  | num (v : Int)
  | str (s : JSStr)

/-- `Number.MAX_SAFE_INTEGER`. -/
def maxSafeInteger : Int := 2 ^ 53 - 1

/-- `parseNumericId`: bigints pass through, numbers must be
non-negative, strings go through `parseNumericStr`. -/
def parseNumericId : NumericInput → Except Err Int
  | .big v => .ok v
  | .num v => if v < 0 then .error .negativeValue else .ok v
  | .str s => parseNumericStr s

/-- Little-endian base-256 digits of `v`, exactly `w` of them: the byte
written by iteration `i` of the `uintToFixedBE` loop counting from the
least-significant end. -/
def leBytes : Nat → Nat → List Nat
  | _, 0 => []
  | v, w + 1 => v % 256 :: leBytes (v / 256) w

/-- `uintToFixedBE`: reject negatives, emit `w` big-endian bytes, and
fail if any bits remain after the loop (`v >>= 8` done `w` times). -/
def uintToFixedBE (value : Int) (width : Nat) : Except Err (List Nat) :=
  if value < 0 then .error .negativeValue
  else
    let n := value.toNat
    if n / 256 ^ width ≠ 0 then .error .overflow
    else .ok (leBytes n width).reverse

/-- Big-endian value of a byte list. -/
def beVal (bs : List Nat) : Nat :=
  bs.foldl (fun a b => 256 * a + b) 0

/-- `KEY_LENGTH`. -/
def KEY_LENGTH : Nat := 32

/-- `CHAIN_ID_BYTES`. -/
def CHAIN_ID_BYTES : Nat := 32

/-- `TIMELOCK_BYTES`. -/
def TIMELOCK_BYTES : Nat := 8

/-- `MIN_SIGNATURE_BYTES`. -/
def MIN_SIGNATURE_BYTES : Nat := 32

/-- `INFO_INITIAL`: UTF-8 bytes of `"signature-key-initial"`. -/
def INFO_INITIAL : List Nat :=
  [115, 105, 103, 110, 97, 116, 117, 114, 101, 45,
   107, 101, 121, 45, 105, 110, 105, 116, 105, 97, 108]

/-- `INFO_TIMELOCK`: UTF-8 bytes of `"signature-key-timelock"`. -/
def INFO_TIMELOCK : List Nat :=
  [115, 105, 103, 110, 97, 116, 117, 114, 101, 45,
   107, 101, 121, 45, 116, 105, 109, 101, 108, 111, 99, 107]

/-- `DerivationOptions`: optional overrides; widths and lengths are
modelled as naturals (the source asserts positive integers, so the only
failing supplied value the model can express is `0`). -/
structure DerivationOptions where
  outputLength : Option Nat
  infoInitialLabel : Option (List Nat)
  infoTimelockLabel : Option (List Nat)
  chainIdWidth : Option Nat
  timelockWidth : Option Nat
deriving DecidableEq, Repr

/-- The empty options record `{}`. -/
def DerivationOptions.empty : DerivationOptions :=
  ⟨none, none, none, none, none⟩

/-- Replace the `infoInitialLabel` field. -/
def DerivationOptions.withInfoInitial
    (o : DerivationOptions) (l : List Nat) : DerivationOptions :=
  ⟨o.outputLength, some l, o.infoTimelockLabel, o.chainIdWidth, o.timelockWidth⟩

/-- Replace the `infoTimelockLabel` field. -/
def DerivationOptions.withInfoTimelock
    (o : DerivationOptions) (l : List Nat) : DerivationOptions :=
  ⟨o.outputLength, o.infoInitialLabel, some l, o.chainIdWidth, o.timelockWidth⟩

/-- `encodeChainId`: positive width, numeric parse, fixed-width BE. -/
def encodeChainId (chainId : NumericInput) (width : Nat) :
    Except Err (List Nat) :=
  if width = 0 then .error .nonPositiveOption
  else
    match parseNumericId chainId with
    | .error e => .error e
    | .ok v => uintToFixedBE v width

/-- `encodeTimelock`: positive width; bigints pass, numbers are checked
non-negative and within `MAX_SAFE_INTEGER`, strings parse numerically;
when the width is exactly `8` a further `uint64` ceiling applies; then
fixed-width BE. -/
def encodeTimelock (timelock : NumericInput) (width : Nat) :
    Except Err (List Nat) :=
  if width = 0 then .error .nonPositiveOption
  else
    let pv : Except Err Int :=
      match timelock with
      | .big v => .ok v
      | .num v =>
        if v < 0 then .error .negativeValue
        else if v > maxSafeInteger then .error .rangeExceeded
        else .ok v
      | .str s => parseNumericStr s
    match pv with
    | .error e => .error e
    | .ok v =>
      if width = 8 ∧ v > 2 ^ 64 - 1 then .error .rangeExceeded
      else uintToFixedBE v width

/-- The external `hkdfSync("sha256", ikm, salt, info, len)` primitive,
taken as a parameter: arguments are ikm, salt, info, output length. -/
abbrev HKDF := List Nat → List Nat → List Nat → Nat → List Nat

/-- `createInitialKeyFromSignature`. -/
def createInitialKeyFromSignature (hkdf : HKDF) (signature : BytesInput)
    (chainId : NumericInput) (opts : DerivationOptions) :
    Except Err JSStr :=
  match toBytes signature with
  | .error e => .error e
  | .ok sigBytes =>
    if sigBytes.length < MIN_SIGNATURE_BYTES then .error .signatureTooShort
    else
      let keyLength := opts.outputLength.getD KEY_LENGTH
      let infoInitial := opts.infoInitialLabel.getD INFO_INITIAL
      let chainIdWidth := opts.chainIdWidth.getD CHAIN_ID_BYTES
      if keyLength = 0 then .error .nonPositiveOption
      else if chainIdWidth = 0 then .error .nonPositiveOption
      else
        match encodeChainId chainId chainIdWidth with
        | .error e => .error e
        | .ok chainIdBytes =>
          let out := hkdf sigBytes chainIdBytes infoInitial keyLength
          if out.length ≠ keyLength then .error .hkdfOutputLength
          else .ok (bytesToHex0x out)

/-- `deriveKeyFromInitialKeyAndTimelock`. -/
def deriveKeyFromInitialKeyAndTimelock (hkdf : HKDF)
    (initialKey : BytesInput) (timelock : NumericInput)
    (opts : DerivationOptions) : Except Err JSStr :=
  match toBytes initialKey with
  | .error e => .error e
  | .ok keyBytes =>
    let keyLength := opts.outputLength.getD KEY_LENGTH
    let infoTimelock := opts.infoTimelockLabel.getD INFO_TIMELOCK
    let timelockWidth := opts.timelockWidth.getD TIMELOCK_BYTES
    if keyLength = 0 then .error .nonPositiveOption
    else if timelockWidth = 0 then .error .nonPositiveOption
    else if keyBytes.length ≠ keyLength then .error .wrongKeyLength
    else
      match encodeTimelock timelock timelockWidth with
      | .error e => .error e
      | .ok timelockBytes =>
        let out := hkdf keyBytes timelockBytes infoTimelock keyLength
        if out.length ≠ keyLength then .error .hkdfOutputLength
        else .ok (bytesToHex0x out)

/-! ### Lemmas about the fixed-width big-endian encoder -/

theorem leBytes_length (v w : Nat) : (leBytes v w).length = w := by
  induction w generalizing v with
  | zero => rfl
  | succ w ih => simp [leBytes, ih]

theorem leBytes_lt (v w : Nat) : ∀ b ∈ leBytes v w, b < 256 := by
  induction w generalizing v with
  | zero => simp [leBytes]
  | succ w ih =>
    intro b hb
    simp only [leBytes, List.mem_cons] at hb
    rcases hb with h | h
    · subst h
      exact Nat.mod_lt v (by norm_num)
    · exact ih _ b h

theorem beVal_append_single (xs : List Nat) (b : Nat) :
    beVal (xs ++ [b]) = 256 * beVal xs + b := by
  simp [beVal, List.foldl_append]

theorem beVal_reverse_leBytes (v w : Nat) :
    beVal (leBytes v w).reverse = v % 256 ^ w := by
  induction w generalizing v with
  | zero => simp [leBytes, beVal, Nat.mod_one]
  | succ w ih =>
    have h256 : (256 : Nat) ^ (w + 1) = 256 * 256 ^ w := by
      rw [pow_succ, Nat.mul_comm]
    rw [leBytes, List.reverse_cons, beVal_append_single, ih, h256,
      Nat.mod_mul]
    omega

theorem two_pow_eq_Int_256_pow (w : Nat) :
    (2 : Int) ^ (8 * w) = ((256 ^ w : Nat) : Int) := by
  rw [pow_mul]
  push_cast
  norm_num

theorem uintToFixedBE_cases (v : Int) (w : Nat) :
    (v < 0 → uintToFixedBE v w = .error .negativeValue) ∧
    (0 ≤ v → v < (2 : Int) ^ (8 * w) →
      ∃ bs, uintToFixedBE v w = .ok bs ∧ bs.length = w ∧
        (∀ b ∈ bs, b < 256) ∧ (beVal bs : Int) = v) ∧
    (0 ≤ v → (2 : Int) ^ (8 * w) ≤ v → uintToFixedBE v w = .error .overflow) := by
  refine ⟨fun hneg => ?_, fun hpos hlt => ?_, fun hpos hge => ?_⟩
  · simp [uintToFixedBE, hneg]
  · have hn : v.toNat < 256 ^ w := by
      rw [two_pow_eq_Int_256_pow] at hlt
      omega
    have hdiv : v.toNat / 256 ^ w = 0 := Nat.div_eq_of_lt hn
    refine ⟨(leBytes v.toNat w).reverse, ?_, ?_, ?_, ?_⟩
    · simp [uintToFixedBE, not_lt.mpr hpos, hdiv]
    · simp [leBytes_length]
    · intro b hb
      exact leBytes_lt v.toNat w b (List.mem_reverse.mp hb)
    · rw [beVal_reverse_leBytes, Nat.mod_eq_of_lt hn]
      omega
  · have hn : 256 ^ w ≤ v.toNat := by
      rw [two_pow_eq_Int_256_pow] at hge
      omega
    have hdiv : v.toNat / 256 ^ w ≠ 0 := by
      have := Nat.div_pos hn (Nat.pos_pow_of_pos w (by norm_num))
      omega
    simp [uintToFixedBE, not_lt.mpr hpos, hdiv]

/-- C2: `uintToFixedBE` returns exactly `w` bytes whose big-endian value
is `v` whenever `0 ≤ v < 2 ^ (8 w)`, fails with the overflow error
exactly when `v ≥ 2 ^ (8 w)`, and fails with the negative-value error
when `v < 0`. -/
theorem uintToFixedBE_spec (v : Int) (w : Nat) :
    (v < 0 → uintToFixedBE v w = .error .negativeValue) ∧
    (0 ≤ v → v < (2 : Int) ^ (8 * w) →
      ∃ bs, uintToFixedBE v w = .ok bs ∧ bs.length = w ∧
        (∀ b ∈ bs, b < 256) ∧ (beVal bs : Int) = v) ∧
    (0 ≤ v → (2 : Int) ^ (8 * w) ≤ v →
      uintToFixedBE v w = .error .overflow) :=
  uintToFixedBE_cases v w

/-- Witness for C2 at concrete inputs. -/
theorem uintToFixedBE_spec_witness :
    uintToFixedBE (-1) 2 = .error .negativeValue ∧
    (∃ bs, uintToFixedBE 258 2 = .ok bs ∧ bs.length = 2 ∧
      (∀ b ∈ bs, b < 256) ∧ (beVal bs : Int) = 258) ∧
    uintToFixedBE 256 1 = .error .overflow :=
  ⟨(uintToFixedBE_spec (-1) 2).1 (by decide),
   (uintToFixedBE_spec 258 2).2.1 (by decide) (by decide),
   (uintToFixedBE_spec 256 1).2.2 (by decide) (by decide)⟩

/-! ### Lemmas about trimming, prefix stripping, and hex decoding -/

theorem hexDigitVal?_isSome_iff (c : Nat) :
    (hexDigitVal? c).isSome = true ↔ isHexDigitCode c = true := by
  simp only [hexDigitVal?, isHexDigitCode]
  split_ifs with h1 h2 h3 <;> simp <;> omega

theorem hexDigitVal?_lt (c d : Nat) (h : hexDigitVal? c = some d) : d < 16 := by
  simp only [hexDigitVal?] at h
  split_ifs at h <;> cases h <;> omega

theorem nibChar_val (c d : Nat) (hc : isLowerHexCode c = true)
    (h : hexDigitVal? c = some d) : nibChar d = c := by
  simp only [isLowerHexCode, decide_eq_true_eq] at hc
  simp only [hexDigitVal?] at h
  split_ifs at h <;> cases h <;> simp only [nibChar] <;> split_ifs <;> omega

theorem dropWhile_ws_append_of_all (w x : JSStr)
    (h : ∀ c ∈ w, isWSCode c = true) :
    (w ++ x).dropWhile isWSCode = x.dropWhile isWSCode := by
  induction w with
  | nil => rfl
  | cons c w ih =>
    have hc : isWSCode c = true := h c (List.mem_cons_self c w)
    rw [List.cons_append, List.dropWhile_cons, if_pos hc]
    exact ih fun d hd => h d (List.mem_cons_of_mem c hd)

theorem dropWhile_ws_append_of_ne_nil (s t : JSStr)
    (h : s.dropWhile isWSCode ≠ []) :
    (s ++ t).dropWhile isWSCode = s.dropWhile isWSCode ++ t := by
  induction s with
  | nil => simp [List.dropWhile] at h
  | cons c s ih =>
    by_cases hc : isWSCode c = true
    · rw [List.dropWhile_cons, if_pos hc] at h
      rw [List.cons_append, List.dropWhile_cons, if_pos hc,
        List.dropWhile_cons, if_pos hc]
      exact ih h
    · rw [List.cons_append, List.dropWhile_cons, if_neg hc,
        List.dropWhile_cons, if_neg hc, List.cons_append]

theorem trimStr_pad (w1 s w2 : JSStr)
    (h1 : ∀ c ∈ w1, isWSCode c = true) (h2 : ∀ c ∈ w2, isWSCode c = true) :
    trimStr (w1 ++ s ++ w2) = trimStr s := by
  have hassoc : w1 ++ s ++ w2 = w1 ++ (s ++ w2) := by
    rw [List.append_assoc]
  by_cases hnil : s.dropWhile isWSCode = []
  · have hsws : ∀ c ∈ s, isWSCode c = true :=
      List.dropWhile_eq_nil_iff.mp hnil
    have hall : ∀ c ∈ w1 ++ (s ++ w2), isWSCode c = true := by
      intro c hc
      rcases List.mem_append.mp hc with h | h
      · exact h1 c h
      rcases List.mem_append.mp h with h | h
      · exact hsws c h
      · exact h2 c h
    rw [hassoc]
    simp only [trimStr, List.dropWhile_eq_nil_iff.mpr hall, hnil,
      List.reverse_nil, List.dropWhile_nil]
  · rw [hassoc]
    simp only [trimStr, dropWhile_ws_append_of_all w1 (s ++ w2) h1,
      dropWhile_ws_append_of_ne_nil s w2 hnil, List.reverse_append]
    rw [dropWhile_ws_append_of_all w2.reverse (s.dropWhile isWSCode).reverse
      (fun c hc => h2 c (List.mem_reverse.mp hc))]

theorem dropWhile_ws_of_none (s : JSStr)
    (h : ∀ c ∈ s, isWSCode c = false) : s.dropWhile isWSCode = s := by
  cases s with
  | nil => rfl
  | cons c s =>
    have hc : isWSCode c = false := h c (List.mem_cons_self c s)
    rw [List.dropWhile_cons, if_neg (by simp [hc])]

theorem trimStr_of_no_ws (s : JSStr)
    (h : ∀ c ∈ s, isWSCode c = false) : trimStr s = s := by
  simp only [trimStr, dropWhile_ws_of_none s h,
    dropWhile_ws_of_none s.reverse (fun c hc => h c (List.mem_reverse.mp hc)),
    List.reverse_reverse]

theorem strip0x_congr (s1 s2 : JSStr) (h : trimStr s1 = trimStr s2) :
    strip0x s1 = strip0x s2 := by
  simp only [strip0x, h]

theorem hexToBytesStrict_congr (s1 s2 : JSStr)
    (h : strip0x s1 = strip0x s2) :
    hexToBytesStrict s1 = hexToBytesStrict s2 := by
  simp only [hexToBytesStrict, h]

theorem hexDecodePairs_ok : ∀ s : List Nat, s.length % 2 = 0 →
    (∀ c ∈ s, isHexDigitCode c = true) →
    ∃ bs, hexDecodePairs s = some bs ∧ bs.length = s.length / 2
  | [], _, _ => ⟨[], rfl, rfl⟩
  | [_], he, _ => by simp at he
  | c1 :: c2 :: rest, he, hall => by
    have h1 : (hexDigitVal? c1).isSome = true :=
      (hexDigitVal?_isSome_iff c1).mpr (hall c1 (by simp))
    have h2 : (hexDigitVal? c2).isSome = true :=
      (hexDigitVal?_isSome_iff c2).mpr (hall c2 (by simp))
    obtain ⟨d1, hd1⟩ := Option.isSome_iff_exists.mp h1
    obtain ⟨d2, hd2⟩ := Option.isSome_iff_exists.mp h2
    have he' : rest.length % 2 = 0 := by
      simp only [List.length_cons] at he
      omega
    obtain ⟨bs, hbs, hlen⟩ :=
      hexDecodePairs_ok rest he' (fun c hc => hall c (by simp [hc]))
    refine ⟨(16 * d1 + d2) :: bs, ?_, ?_⟩
    · simp [hexDecodePairs, hd1, hd2, hbs]
    · simp only [List.length_cons, hlen]
      omega

theorem hexDecodePairs_none_of_bad : ∀ s : List Nat, ∀ c ∈ s,
    isHexDigitCode c = false → hexDecodePairs s = none
  | [], c, hc, _ => by simp at hc
  | [_], _, _, _ => rfl
  | c1 :: c2 :: rest, c, hc, hbad => by
    have hval : hexDigitVal? c = none := by
      cases hv : hexDigitVal? c with
      | none => rfl
      | some d =>
        have := (hexDigitVal?_isSome_iff c).mp (by simp [hv])
        rw [this] at hbad
        cases hbad
    rcases List.mem_cons.mp hc with h | h
    · subst h
      simp [hexDecodePairs, hval]
    rcases List.mem_cons.mp h with h | h
    · subst h
      simp only [hexDecodePairs, hval]
      cases hexDigitVal? c1 <;> rfl
    · simp only [hexDecodePairs, hexDecodePairs_none_of_bad rest c h hbad]
      cases hexDigitVal? c1 <;> cases hexDigitVal? c2 <;> rfl

theorem hexDecodePairs_roundtrip : ∀ s : List Nat, ∀ bs : List Nat,
    hexDecodePairs s = some bs →
    (∀ c ∈ s, isLowerHexCode c = true) → hexEncodeBytes bs = s
  | [], bs, h, _ => by
    simp only [hexDecodePairs, Option.some.injEq] at h
    subst h
    rfl
  | [_], bs, h, _ => by simp [hexDecodePairs] at h
  | c1 :: c2 :: rest, bs, h, hl => by
    simp only [hexDecodePairs] at h
    cases hv1 : hexDigitVal? c1 with
    | none => rw [hv1] at h; cases h
    | some d1 =>
    cases hv2 : hexDigitVal? c2 with
    | none => rw [hv1, hv2] at h; cases h
    | some d2 =>
    cases hr : hexDecodePairs rest with
    | none => rw [hv1, hv2, hr] at h; cases h
    | some bs' =>
      rw [hv1, hv2, hr] at h
      simp only [Option.some.injEq] at h
      subst h
      have hd2lt : d2 < 16 := hexDigitVal?_lt c2 d2 hv2
      have hdiv : (16 * d1 + d2) / 16 = d1 := by omega
      have hmod : (16 * d1 + d2) % 16 = d2 := by omega
      simp only [hexEncodeBytes, hdiv, hmod]
      rw [nibChar_val c1 d1 (hl c1 (by simp)) hv1,
        nibChar_val c2 d2 (hl c2 (by simp)) hv2,
        hexDecodePairs_roundtrip rest bs' hr (fun c hc => hl c (by simp [hc]))]

theorem isHexDigitCode_not_ws (c : Nat) (h : isHexDigitCode c = true) :
    isWSCode c = false := by
  simp only [isHexDigitCode, decide_eq_true_eq] at h
  simp only [isWSCode, decide_eq_false_iff_not]
  omega

theorem isDigitCode_not_ws (c : Nat) (h : isDigitCode c = true) :
    isWSCode c = false := by
  simp only [isDigitCode, decide_eq_true_eq] at h
  simp only [isWSCode, decide_eq_false_iff_not]
  omega

theorem isLowerHexCode_hex (c : Nat) (h : isLowerHexCode c = true) :
    isHexDigitCode c = true := by
  simp only [isLowerHexCode, decide_eq_true_eq] at h
  simp only [isHexDigitCode, decide_eq_true_eq]
  omega

theorem strip0x_of_lower_hex (s : JSStr)
    (h : ∀ c ∈ s, isLowerHexCode c = true) : strip0x s = s := by
  have ht : trimStr s = s :=
    trimStr_of_no_ws s fun c hc =>
      isHexDigitCode_not_ws c (isLowerHexCode_hex c (h c hc))
  simp only [strip0x, ht]
  rw [if_neg]
  intro hor
  rcases hor with h2 | h2
  · have hm : (120 : Nat) ∈ s := List.take_subset 2 s (by rw [h2]; simp)
    have := h 120 hm
    simp [isLowerHexCode] at this
  · have hm : (88 : Nat) ∈ s := List.take_subset 2 s (by rw [h2]; simp)
    have := h 88 hm
    simp [isLowerHexCode] at this

theorem hexToBytesStrict_ok_decode (s : JSStr) (bs : List Nat)
    (h : hexToBytesStrict s = .ok bs) :
    hexDecodePairs (strip0x s) = some bs := by
  simp only [hexToBytesStrict] at h
  split_ifs at h
  cases hd : hexDecodePairs (strip0x s) with
  | some bs' =>
    rw [hd] at h
    cases h
    rfl
  | none =>
    rw [hd] at h
    cases h

theorem parseHexNat?_of_all (r : JSStr)
    (hh : ∀ c ∈ r, isHexDigitCode c = true) : ∀ acc : Nat,
    parseHexNat? r acc =
      some (r.foldl (fun a c => 16 * a + ((hexDigitVal? c).getD 0)) acc) := by
  induction r with
  | nil => intro acc; rfl
  | cons c r ih =>
    intro acc
    obtain ⟨d, hd⟩ := Option.isSome_iff_exists.mp
      ((hexDigitVal?_isSome_iff c).mpr (hh c (by simp)))
    simp only [parseHexNat?, hd, List.foldl_cons, Option.getD_some]
    exact ih (fun c hc => hh c (by simp [hc])) (16 * acc + d)

theorem parseNumericStr_decimal (s : JSStr) (hne : s ≠ [])
    (hd : ∀ c ∈ s, isDigitCode c = true) :
    parseNumericStr s = .ok ((parseDecNat s : Nat) : Int) := by
  have ht : trimStr s = s :=
    trimStr_of_no_ws s fun c hc => isDigitCode_not_ws c (hd c hc)
  have hlen : ¬ s.length = 0 := by
    simp only [List.length_eq_zero]
    exact hne
  have hpre : ¬ (s.take 2 = [48, 120] ∨ s.take 2 = [48, 88]) := by
    intro hor
    rcases hor with h2 | h2
    · have hm : (120 : Nat) ∈ s := List.take_subset 2 s (by rw [h2]; simp)
      have := hd 120 hm
      simp [isDigitCode] at this
    · have hm : (88 : Nat) ∈ s := List.take_subset 2 s (by rw [h2]; simp)
      have := hd 88 hm
      simp [isDigitCode] at this
  have hall : s.all isDigitCode = true := List.all_eq_true.mpr hd
  simp only [parseNumericStr, ht, if_neg hlen, if_neg hpre, hall, if_true]

theorem parseNumericStr_hex (r : JSStr) (hne : r ≠ [])
    (hh : ∀ c ∈ r, isHexDigitCode c = true) :
    parseNumericStr (48 :: 120 :: r) = .ok ((hexValNat r : Nat) : Int) := by
  have ht : trimStr (48 :: 120 :: r) = 48 :: 120 :: r := by
    refine trimStr_of_no_ws _ fun c hc => ?_
    rcases List.mem_cons.mp hc with h | h
    · subst h; rfl
    rcases List.mem_cons.mp h with h | h
    · subst h; rfl
    · exact isHexDigitCode_not_ws c (hh c h)
  have hlen : ¬ (48 :: 120 :: r).length = 0 := by simp
  have hpre : (48 :: 120 :: r).take 2 = [48, 120] ∨
      (48 :: 120 :: r).take 2 = [48, 88] := by
    left
    rfl
  have hdrop : (48 :: 120 :: r).drop 2 = r := rfl
  have hplen : ¬ r.length = 0 := by
    simp only [List.length_eq_zero]
    exact hne
  simp only [parseNumericStr, ht, if_neg hlen, if_pos hpre, hdrop,
    if_neg hplen, parseHexNat?_of_all r hh 0]
  rfl

/-- C5: strict hex decoding fails with the empty-input error when the
prefix-stripped text is empty, with the odd-length error when its length
is odd, with the invalid-hex error when (at even length) a non-hex
character is present, and otherwise succeeds with exactly
`length / 2` bytes. -/
theorem hexToBytesStrict_spec (s : JSStr) :
    (strip0x s = [] → hexToBytesStrict s = .error .emptyInput) ∧
    (strip0x s ≠ [] → (strip0x s).length % 2 = 1 →
      hexToBytesStrict s = .error .oddLength) ∧
    ((strip0x s).length % 2 = 0 →
      (∃ c ∈ strip0x s, isHexDigitCode c = false) →
      hexToBytesStrict s = .error .invalidHex) ∧
    (strip0x s ≠ [] → (strip0x s).length % 2 = 0 →
      (∀ c ∈ strip0x s, isHexDigitCode c = true) →
      ∃ bs, hexToBytesStrict s = .ok bs ∧
        bs.length = (strip0x s).length / 2) := by
  refine ⟨fun h => ?_, fun hne hodd => ?_, fun hev hbad => ?_,
    fun hne hev hall => ?_⟩
  · simp [hexToBytesStrict, h]
  · have hlen : ¬ (strip0x s).length = 0 := by
      simp only [List.length_eq_zero]
      exact hne
    simp [hexToBytesStrict, hlen, hodd]
  · obtain ⟨c, hc, hcbad⟩ := hbad
    have hne : strip0x s ≠ [] := by
      intro h
      rw [h] at hc
      simp at hc
    have hlen : ¬ (strip0x s).length = 0 := by
      simp only [List.length_eq_zero]
      exact hne
    simp [hexToBytesStrict, hlen, hev,
      hexDecodePairs_none_of_bad (strip0x s) c hc hcbad]
  · obtain ⟨bs, hbs, hblen⟩ := hexDecodePairs_ok (strip0x s) hev hall
    have hlen : ¬ (strip0x s).length = 0 := by
      simp only [List.length_eq_zero]
      exact hne
    exact ⟨bs, by simp [hexToBytesStrict, hlen, hev, hbs], hblen⟩

/-- Witness for C5 at concrete inputs: `"0x"`, `"0xaaa"`, `"0xgh"`,
`"0xab"`. -/
theorem hexToBytesStrict_spec_witness :
    hexToBytesStrict [48, 120] = .error .emptyInput ∧
    hexToBytesStrict [48, 120, 97, 97, 97] = .error .oddLength ∧
    hexToBytesStrict [48, 120, 103, 104] = .error .invalidHex ∧
    ∃ bs, hexToBytesStrict [48, 120, 97, 98] = .ok bs ∧
      bs.length = (strip0x [48, 120, 97, 98]).length / 2 :=
  ⟨(hexToBytesStrict_spec [48, 120]).1 (by decide),
   (hexToBytesStrict_spec [48, 120, 97, 97, 97]).2.1 (by decide) (by decide),
   (hexToBytesStrict_spec [48, 120, 103, 104]).2.2.1 (by decide)
     ⟨103, by decide, by decide⟩,
   (hexToBytesStrict_spec [48, 120, 97, 98]).2.2.2 (by decide) (by decide)
     (by decide)⟩

/-- C9 counterexample: `"ab"` and `"0xab"` are different strings on
which strict hex decoding succeeds with the same bytes, so the decoder
is not injective over its valid-input domain. -/
theorem hexToBytesStrict_not_injective :
    hexToBytesStrict [97, 98] = .ok [171] ∧
    hexToBytesStrict [48, 120, 97, 98] = .ok [171] ∧
    ([97, 98] : JSStr) ≠ [48, 120, 97, 98] :=
  ⟨by decide, by decide, by decide⟩

/-- C9 amended: strict hex decoding is injective over canonical inputs,
i.e. strings consisting only of lowercase hex digits (no `0x` prefix,
no whitespace, no uppercase digits): equal output bytes force equal
input strings. -/
theorem hexToBytesStrict_injective_canonical (s1 s2 : JSStr)
    (bs : List Nat)
    (h1 : ∀ c ∈ s1, isLowerHexCode c = true)
    (h2 : ∀ c ∈ s2, isLowerHexCode c = true)
    (d1 : hexToBytesStrict s1 = .ok bs)
    (d2 : hexToBytesStrict s2 = .ok bs) : s1 = s2 := by
  have e1 : hexDecodePairs s1 = some bs := by
    have := hexToBytesStrict_ok_decode s1 bs d1
    rwa [strip0x_of_lower_hex s1 h1] at this
  have e2 : hexDecodePairs s2 = some bs := by
    have := hexToBytesStrict_ok_decode s2 bs d2
    rwa [strip0x_of_lower_hex s2 h2] at this
  rw [← hexDecodePairs_roundtrip s1 bs e1 h1,
    ← hexDecodePairs_roundtrip s2 bs e2 h2]

/-- Witness for the amended C9 at a concrete input. -/
theorem hexToBytesStrict_injective_canonical_witness :
    ([97, 98] : JSStr) = [97, 98] :=
  hexToBytesStrict_injective_canonical [97, 98] [97, 98] [171]
    (by decide) (by decide) (by decide) (by decide)

/-- C10: inputs on the string byte-coercion path are trimmed of leading
and trailing whitespace before the prefix strip, so whitespace padding
around a successfully decoded hex string decodes to the same bytes. -/
theorem toBytes_trims_whitespace (s w1 w2 : JSStr) (bs : List Nat)
    (h1 : ∀ c ∈ w1, isWSCode c = true) (h2 : ∀ c ∈ w2, isWSCode c = true)
    (hs : toBytes (.str s) = .ok bs) :
    toBytes (.str (w1 ++ s ++ w2)) = .ok bs := by
  have hc : hexToBytesStrict (w1 ++ s ++ w2) = hexToBytesStrict s :=
    hexToBytesStrict_congr _ _
      (strip0x_congr _ _ (trimStr_pad w1 s w2 h1 h2))
  show hexToBytesStrict (w1 ++ s ++ w2) = .ok bs
  rw [hc]
  exact hs

/-- Witness for C10: `" \t"` and `" "` padding around `"ab"`. -/
theorem toBytes_trims_whitespace_witness :
    toBytes (.str ([32, 9] ++ [97, 98] ++ [32])) = .ok [171] :=
  toBytes_trims_whitespace [97, 98] [32, 9] [32] [171]
    (by decide) (by decide) (by decide)

theorem createInitialKey_str_congr (hkdf : HKDF) (sig : BytesInput)
    (opts : DerivationOptions) (s1 s2 : JSStr)
    (h : parseNumericStr s1 = parseNumericStr s2) :
    createInitialKeyFromSignature hkdf sig (.str s1) opts =
      createInitialKeyFromSignature hkdf sig (.str s2) opts := by
  simp only [createInitialKeyFromSignature, encodeChainId, parseNumericId, h]

theorem deriveKey_str_congr (hkdf : HKDF) (ik : BytesInput)
    (opts : DerivationOptions) (s1 s2 : JSStr)
    (h : parseNumericStr s1 = parseNumericStr s2) :
    deriveKeyFromInitialKeyAndTimelock hkdf ik (.str s1) opts =
      deriveKeyFromInitialKeyAndTimelock hkdf ik (.str s2) opts := by
  simp only [deriveKeyFromInitialKeyAndTimelock, encodeTimelock, h]

/-- C1: a pure-decimal digit string and a `0x`-prefixed hex string that
denote the same non-negative integer produce identical output from
`createInitialKeyFromSignature` (as the chain id) and from
`deriveKeyFromInitialKeyAndTimelock` (as the timelock), for every
signature, initial key, and options, because numeric parsing yields the
same integer before fixed-width encoding. -/
theorem numeric_format_equivalence (hkdf : HKDF) (sig ik : BytesInput)
    (opts : DerivationOptions) (d r : JSStr)
    (hd1 : d ≠ []) (hd2 : ∀ c ∈ d, isDigitCode c = true)
    (hr1 : r ≠ []) (hr2 : ∀ c ∈ r, isHexDigitCode c = true)
    (heq : parseDecNat d = hexValNat r) :
    createInitialKeyFromSignature hkdf sig (.str d) opts =
      createInitialKeyFromSignature hkdf sig (.str (48 :: 120 :: r)) opts ∧
    deriveKeyFromInitialKeyAndTimelock hkdf ik (.str d) opts =
      deriveKeyFromInitialKeyAndTimelock hkdf ik
        (.str (48 :: 120 :: r)) opts := by
  have hp : parseNumericStr d = parseNumericStr (48 :: 120 :: r) := by
    rw [parseNumericStr_decimal d hd1 hd2, parseNumericStr_hex r hr1 hr2, heq]
  exact ⟨createInitialKey_str_congr hkdf sig opts d (48 :: 120 :: r) hp,
    deriveKey_str_congr hkdf ik opts d (48 :: 120 :: r) hp⟩

/-- Witness for C1: chain id / timelock `"255"` versus `"0xff"`, with a
32-byte signature and a 32-byte initial key. -/
theorem numeric_format_equivalence_witness :
    createInitialKeyFromSignature (fun _ _ _ n => List.replicate n 0)
        (.bytes (List.replicate 32 170)) (.str [50, 53, 53])
        DerivationOptions.empty =
      createInitialKeyFromSignature (fun _ _ _ n => List.replicate n 0)
        (.bytes (List.replicate 32 170)) (.str [48, 120, 102, 102])
        DerivationOptions.empty ∧
    deriveKeyFromInitialKeyAndTimelock (fun _ _ _ n => List.replicate n 0)
        (.bytes (List.replicate 32 0)) (.str [50, 53, 53])
        DerivationOptions.empty =
      deriveKeyFromInitialKeyAndTimelock (fun _ _ _ n => List.replicate n 0)
        (.bytes (List.replicate 32 0)) (.str [48, 120, 102, 102])
        DerivationOptions.empty :=
  numeric_format_equivalence (fun _ _ _ n => List.replicate n 0)
    (.bytes (List.replicate 32 170)) (.bytes (List.replicate 32 0))
    DerivationOptions.empty [50, 53, 53] [102, 102]
    (by decide) (by decide) (by decide) (by decide) (by decide)

/-- C3: the default info label of the initial stage and the default
info label of the timelock stage are distinct byte sequences, and these
constants are exactly the labels the two derivation operations use when
no override is supplied. -/
theorem info_labels_distinct :
    INFO_INITIAL ≠ INFO_TIMELOCK ∧
    (∀ (hkdf : HKDF) (sig : BytesInput) (cid : NumericInput)
        (opts : DerivationOptions), opts.infoInitialLabel = none →
      createInitialKeyFromSignature hkdf sig cid opts =
        createInitialKeyFromSignature hkdf sig cid
          (opts.withInfoInitial INFO_INITIAL)) ∧
    (∀ (hkdf : HKDF) (ik : BytesInput) (t : NumericInput)
        (opts : DerivationOptions), opts.infoTimelockLabel = none →
      deriveKeyFromInitialKeyAndTimelock hkdf ik t opts =
        deriveKeyFromInitialKeyAndTimelock hkdf ik t
          (opts.withInfoTimelock INFO_TIMELOCK)) := by
  refine ⟨by decide, fun hkdf sig cid opts h => ?_, fun hkdf ik t opts h => ?_⟩
  · simp only [createInitialKeyFromSignature,
      DerivationOptions.withInfoInitial, h, Option.getD_none, Option.getD_some]
  · simp only [deriveKeyFromInitialKeyAndTimelock,
      DerivationOptions.withInfoTimelock, h, Option.getD_none, Option.getD_some]

/-- Witness for C3 on the empty options record. -/
theorem info_labels_distinct_witness :
    createInitialKeyFromSignature (fun _ _ _ n => List.replicate n 0)
        (.bytes (List.replicate 32 170)) (.big 1) DerivationOptions.empty =
      createInitialKeyFromSignature (fun _ _ _ n => List.replicate n 0)
        (.bytes (List.replicate 32 170)) (.big 1)
        (DerivationOptions.empty.withInfoInitial INFO_INITIAL) ∧
    deriveKeyFromInitialKeyAndTimelock (fun _ _ _ n => List.replicate n 0)
        (.bytes (List.replicate 32 0)) (.big 1) DerivationOptions.empty =
      deriveKeyFromInitialKeyAndTimelock (fun _ _ _ n => List.replicate n 0)
        (.bytes (List.replicate 32 0)) (.big 1)
        (DerivationOptions.empty.withInfoTimelock INFO_TIMELOCK) :=
  ⟨info_labels_distinct.2.1 (fun _ _ _ n => List.replicate n 0)
      (.bytes (List.replicate 32 170)) (.big 1) DerivationOptions.empty rfl,
   info_labels_distinct.2.2 (fun _ _ _ n => List.replicate n 0)
      (.bytes (List.replicate 32 0)) (.big 1) DerivationOptions.empty rfl⟩

theorem encodeTimelock_big_eq (v : Int) (w : Nat) (hw : w ≠ 0) :
    encodeTimelock (.big v) w =
      if w = 8 ∧ v > 2 ^ 64 - 1 then .error .rangeExceeded
      else uintToFixedBE v w := by
  simp only [encodeTimelock, if_neg hw]

theorem encodeTimelock_num_over (v : Int) (w : Nat) (hw : w ≠ 0)
    (h0 : ¬ v < 0) (hmax : v > maxSafeInteger) :
    encodeTimelock (.num v) w = .error .rangeExceeded := by
  simp only [encodeTimelock, if_neg hw, if_neg h0, if_pos hmax]

theorem encodeTimelock_num_neg (v : Int) (w : Nat) (hw : w ≠ 0)
    (h0 : v < 0) : encodeTimelock (.num v) w = .error .negativeValue := by
  simp only [encodeTimelock, if_neg hw, if_pos h0]

theorem encodeTimelock_num_eq (v : Int) (w : Nat) (hw : w ≠ 0)
    (h0 : ¬ v < 0) (hmax : ¬ v > maxSafeInteger) :
    encodeTimelock (.num v) w =
      if w = 8 ∧ v > 2 ^ 64 - 1 then .error .rangeExceeded
      else uintToFixedBE v w := by
  simp only [encodeTimelock, if_neg hw, if_neg h0, if_neg hmax]

theorem encodeTimelock_str_err (s : JSStr) (w : Nat) (e' : Err)
    (hw : w ≠ 0) (hp : parseNumericStr s = .error e') :
    encodeTimelock (.str s) w = .error e' := by
  simp only [encodeTimelock, if_neg hw, hp]

theorem encodeTimelock_str_ok (s : JSStr) (w : Nat) (v : Int)
    (hw : w ≠ 0) (hp : parseNumericStr s = .ok v) :
    encodeTimelock (.str s) w =
      if w = 8 ∧ v > 2 ^ 64 - 1 then .error .rangeExceeded
      else uintToFixedBE v w := by
  simp only [encodeTimelock, if_neg hw, hp]

/-- C4: the unsigned-64-bit ceiling (`RangeExceededError` above
`2^64 - 1`) applies exactly when the timelock width is `8`; at every
other positive width values are encoded whenever they fit (with only an
overflow error otherwise); and an integral machine-number timelock above
`Number.MAX_SAFE_INTEGER` is rejected at every positive width. -/
theorem encodeTimelock_uint64_ceiling :
    (∀ v : Int, (2 : Int) ^ 64 - 1 < v →
      encodeTimelock (.big v) 8 = .error .rangeExceeded) ∧
    (∀ v : Int, 0 ≤ v → v ≤ (2 : Int) ^ 64 - 1 →
      ∃ bs, encodeTimelock (.big v) 8 = .ok bs ∧ bs.length = 8) ∧
    (∀ (w : Nat) (v : Int), w ≠ 0 → w ≠ 8 → 0 ≤ v →
      v < (2 : Int) ^ (8 * w) →
      ∃ bs, encodeTimelock (.big v) w = .ok bs ∧ bs.length = w) ∧
    (∀ (w : Nat) (v : Int), w ≠ 0 → w ≠ 8 → 0 ≤ v →
      (2 : Int) ^ (8 * w) ≤ v →
      encodeTimelock (.big v) w = .error .overflow) ∧
    (∀ (w : Nat) (v : Int), w ≠ 0 → maxSafeInteger < v →
      encodeTimelock (.num v) w = .error .rangeExceeded) := by
  refine ⟨fun v hv => ?_, fun v hv0 hv => ?_, fun w v hw hw8 hv0 hv => ?_,
    fun w v hw hw8 hv0 hv => ?_, fun w v hw hv => ?_⟩
  · rw [encodeTimelock_big_eq v 8 (by decide), if_pos ⟨rfl, hv⟩]
  · obtain ⟨bs, hbs, hlen, _, _⟩ :=
      (uintToFixedBE_cases v 8).2.1 hv0 (by norm_num at hv ⊢; omega)
    refine ⟨bs, ?_, hlen⟩
    rw [encodeTimelock_big_eq v 8 (by decide),
      if_neg (fun hc => absurd hv (not_le.mpr hc.2))]
    exact hbs
  · obtain ⟨bs, hbs, hlen, _, _⟩ := (uintToFixedBE_cases v w).2.1 hv0 hv
    refine ⟨bs, ?_, hlen⟩
    rw [encodeTimelock_big_eq v w hw, if_neg (fun hc => hw8 hc.1)]
    exact hbs
  · have hover := (uintToFixedBE_cases v w).2.2 hv0 hv
    rw [encodeTimelock_big_eq v w hw, if_neg (fun hc => hw8 hc.1)]
    exact hover
  · have hv0 : ¬ v < 0 := by
      simp only [maxSafeInteger] at hv
      omega
    exact encodeTimelock_num_over v w hw hv0 hv

/-- Witness for C4 at concrete inputs. -/
theorem encodeTimelock_uint64_ceiling_witness :
    encodeTimelock (.big (2 ^ 64)) 8 = .error .rangeExceeded ∧
    (∃ bs, encodeTimelock (.big 1000) 8 = .ok bs ∧ bs.length = 8) ∧
    (∃ bs, encodeTimelock (.big (2 ^ 64)) 9 = .ok bs ∧ bs.length = 9) ∧
    encodeTimelock (.big (2 ^ 16)) 2 = .error .overflow ∧
    encodeTimelock (.num (2 ^ 53)) 3 = .error .rangeExceeded :=
  ⟨encodeTimelock_uint64_ceiling.1 (2 ^ 64) (by norm_num),
   encodeTimelock_uint64_ceiling.2.1 1000 (by norm_num) (by norm_num),
   encodeTimelock_uint64_ceiling.2.2.1 9 (2 ^ 64) (by norm_num) (by norm_num)
     (by norm_num) (by norm_num),
   encodeTimelock_uint64_ceiling.2.2.2.1 2 (2 ^ 16) (by norm_num)
     (by norm_num) (by norm_num) (by norm_num),
   encodeTimelock_uint64_ceiling.2.2.2.2 3 (2 ^ 53) (by norm_num)
     (by simp [maxSafeInteger])⟩

/-! ### Which error kinds each operation can produce -/

theorem parseNumericStr_error_ne (s : JSStr) (e : Err)
    (h : parseNumericStr s = .error e) :
    e ≠ .signatureTooShort ∧ e ≠ .wrongKeyLength := by
  simp only [parseNumericStr] at h
  split_ifs at h
  · cases h
    exact ⟨by decide, by decide⟩
  · cases h
    exact ⟨by decide, by decide⟩
  · cases hp : parseHexNat? ((trimStr s).drop 2) 0 with
    | some v =>
      rw [hp] at h
      cases h
    | none =>
      rw [hp] at h
      cases h
      exact ⟨by decide, by decide⟩
  · cases h
    exact ⟨by decide, by decide⟩

theorem uintToFixedBE_error_ne (v : Int) (w : Nat) (e : Err)
    (h : uintToFixedBE v w = .error e) :
    e ≠ .signatureTooShort ∧ e ≠ .wrongKeyLength := by
  simp only [uintToFixedBE] at h
  split_ifs at h <;> (cases h; exact ⟨by decide, by decide⟩)

theorem parseNumericId_error_ne (x : NumericInput) (e : Err)
    (h : parseNumericId x = .error e) :
    e ≠ .signatureTooShort ∧ e ≠ .wrongKeyLength := by
  cases x with
  | big v => cases h
  | num v =>
    simp only [parseNumericId] at h
    split_ifs at h
    cases h
    exact ⟨by decide, by decide⟩
  | str s => exact parseNumericStr_error_ne s e h

theorem encodeChainId_error_ne (x : NumericInput) (w : Nat) (e : Err)
    (h : encodeChainId x w = .error e) :
    e ≠ .signatureTooShort ∧ e ≠ .wrongKeyLength := by
  simp only [encodeChainId] at h
  split_ifs at h
  · cases h
    exact ⟨by decide, by decide⟩
  · cases hp : parseNumericId x with
    | error e' =>
      rw [hp] at h
      cases h
      exact parseNumericId_error_ne x _ hp
    | ok v =>
      rw [hp] at h
      exact uintToFixedBE_error_ne v w e h

theorem encodeTimelock_error_ne (x : NumericInput) (w : Nat) (e : Err)
    (h : encodeTimelock x w = .error e) :
    e ≠ .signatureTooShort ∧ e ≠ .wrongKeyLength := by
  by_cases hw : w = 0
  · subst hw
    simp only [encodeTimelock, if_pos rfl] at h
    cases h
    exact ⟨by decide, by decide⟩
  cases x with
  | big v =>
    rw [encodeTimelock_big_eq v w hw] at h
    by_cases h8 : w = 8 ∧ v > 2 ^ 64 - 1
    · rw [if_pos h8] at h
      cases h
      exact ⟨by decide, by decide⟩
    · rw [if_neg h8] at h
      exact uintToFixedBE_error_ne v w e h
  | num v =>
    by_cases h0 : v < 0
    · rw [encodeTimelock_num_neg v w hw h0] at h
      cases h
      exact ⟨by decide, by decide⟩
    by_cases hm : v > maxSafeInteger
    · rw [encodeTimelock_num_over v w hw h0 hm] at h
      cases h
      exact ⟨by decide, by decide⟩
    rw [encodeTimelock_num_eq v w hw h0 hm] at h
    by_cases h8 : w = 8 ∧ v > 2 ^ 64 - 1
    · rw [if_pos h8] at h
      cases h
      exact ⟨by decide, by decide⟩
    · rw [if_neg h8] at h
      exact uintToFixedBE_error_ne v w e h
  | str s =>
    cases hp : parseNumericStr s with
    | error e' =>
      rw [encodeTimelock_str_err s w e' hw hp] at h
      cases h
      exact parseNumericStr_error_ne s _ hp
    | ok v =>
      rw [encodeTimelock_str_ok s w v hw hp] at h
      by_cases h8 : w = 8 ∧ v > 2 ^ 64 - 1
      · rw [if_pos h8] at h
        cases h
        exact ⟨by decide, by decide⟩
      · rw [if_neg h8] at h
        exact uintToFixedBE_error_ne v w e h

/-- C6: `deriveKeyFromInitialKeyAndTimelock` fails with the
wrong-key-length error for every coerced `initialKey` whose byte length
differs from `outputLength` (default 32), whether shorter or longer, and
never reports that error when the length matches exactly — there is no
truncation or padding fallback. -/
theorem initialKey_exact_length (hkdf : HKDF) (ik : BytesInput)
    (t : NumericInput) (opts : DerivationOptions) (bs : List Nat)
    (hb : toBytes ik = .ok bs)
    (hL : opts.outputLength ≠ some 0) (hW : opts.timelockWidth ≠ some 0) :
    (bs.length ≠ opts.outputLength.getD KEY_LENGTH →
      deriveKeyFromInitialKeyAndTimelock hkdf ik t opts =
        .error .wrongKeyLength) ∧
    (bs.length = opts.outputLength.getD KEY_LENGTH →
      deriveKeyFromInitialKeyAndTimelock hkdf ik t opts ≠
        .error .wrongKeyLength) := by
  have hk : ¬ opts.outputLength.getD KEY_LENGTH = 0 := by
    cases ho : opts.outputLength with
    | none => simp [KEY_LENGTH]
    | some k =>
      simp only [Option.getD_some]
      intro hk0
      exact hL (by rw [ho, hk0])
  have hw : ¬ opts.timelockWidth.getD TIMELOCK_BYTES = 0 := by
    cases ho : opts.timelockWidth with
    | none => simp [TIMELOCK_BYTES]
    | some k =>
      simp only [Option.getD_some]
      intro hk0
      exact hW (by rw [ho, hk0])
  constructor
  · intro hne
    simp only [deriveKeyFromInitialKeyAndTimelock, hb, if_neg hk, if_neg hw,
      if_pos hne]
  · intro heq
    simp only [deriveKeyFromInitialKeyAndTimelock, hb, if_neg hk, if_neg hw,
      if_neg (not_not_intro heq)]
    cases he : encodeTimelock t (opts.timelockWidth.getD TIMELOCK_BYTES) with
    | error e =>
      simp only [he]
      intro hc
      injection hc with h'
      exact (encodeTimelock_error_ne t _ e he).2 h'
    | ok tb =>
      simp only [he]
      split_ifs with hout
      · intro hc
        injection hc with h'
        cases h'
      · intro hc
        cases hc

/-- Witness for C6: a 31-byte and a 32-byte initial key at the default
output length. -/
theorem initialKey_exact_length_witness :
    (List.replicate 31 0).length ≠
        DerivationOptions.empty.outputLength.getD KEY_LENGTH ∧
    deriveKeyFromInitialKeyAndTimelock (fun _ _ _ n => List.replicate n 0)
        (.bytes (List.replicate 31 0)) (.big 1) DerivationOptions.empty =
      .error .wrongKeyLength :=
  ⟨by decide,
   (initialKey_exact_length (fun _ _ _ n => List.replicate n 0)
      (.bytes (List.replicate 31 0)) (.big 1) DerivationOptions.empty
      (List.replicate 31 0) rfl (by decide) (by decide)).1 (by decide)⟩

/-- C7: `createInitialKeyFromSignature` fails with the
signature-too-short error for every coerced signature of fewer than 32
bytes, whether supplied as a hex string or as raw bytes, and never
reports that error for signatures of 32 or more bytes. -/
theorem signature_min_length (hkdf : HKDF) (sig : BytesInput)
    (cid : NumericInput) (opts : DerivationOptions) (bs : List Nat)
    (hb : toBytes sig = .ok bs) :
    (bs.length < 32 →
      createInitialKeyFromSignature hkdf sig cid opts =
        .error .signatureTooShort) ∧
    (32 ≤ bs.length →
      createInitialKeyFromSignature hkdf sig cid opts ≠
        .error .signatureTooShort) := by
  constructor
  · intro hlt
    simp only [createInitialKeyFromSignature, MIN_SIGNATURE_BYTES, hb,
      if_pos hlt]
  · intro hge
    simp only [createInitialKeyFromSignature, MIN_SIGNATURE_BYTES, hb,
      if_neg (not_lt.mpr hge)]
    split_ifs with h1 h2
    · decide
    · decide
    · cases he : encodeChainId cid (opts.chainIdWidth.getD CHAIN_ID_BYTES) with
      | error e =>
        simp only [he]
        intro hc
        injection hc with h'
        exact (encodeChainId_error_ne cid _ e he).1 h'
      | ok cb =>
        simp only [he]
        split_ifs with h3
        · intro hc
          injection hc with h'
          cases h'
        · intro hc
          cases hc

/-- Witness for C7: a 31-byte hex signature is rejected, and the same
call shape with 32 bytes is not rejected for length. -/
theorem signature_min_length_witness :
    (List.replicate 31 170).length < 32 ∧
    createInitialKeyFromSignature (fun _ _ _ n => List.replicate n 0)
        (.bytes (List.replicate 31 170)) (.big 1) DerivationOptions.empty =
      .error .signatureTooShort :=
  ⟨by decide,
   (signature_min_length (fun _ _ _ n => List.replicate n 0)
      (.bytes (List.replicate 31 170)) (.big 1) DerivationOptions.empty
      (List.replicate 31 170) rfl).1 (by decide)⟩

theorem hexEncodeBytes_length (bs : List Nat) :
    (hexEncodeBytes bs).length = 2 * bs.length := by
  induction bs with
  | nil => rfl
  | cons b r ih =>
    simp only [hexEncodeBytes, List.length_cons, ih]
    omega

theorem nibChar_lower (n : Nat) (h : n < 16) :
    isLowerHexCode (nibChar n) = true := by
  simp only [nibChar, isLowerHexCode, decide_eq_true_eq]
  split_ifs <;> omega

theorem hexEncodeBytes_lower (bs : List Nat) (h : ∀ b ∈ bs, b < 256) :
    ∀ c ∈ hexEncodeBytes bs, isLowerHexCode c = true := by
  induction bs with
  | nil => simp [hexEncodeBytes]
  | cons b r ih =>
    intro c hc
    have hb : b < 256 := h b (by simp)
    simp only [hexEncodeBytes, List.mem_cons] at hc
    rcases hc with h1 | h1 | h1
    · subst h1
      exact nibChar_lower _ (by omega)
    · subst h1
      exact nibChar_lower _ (by omega)
    · exact ih (fun x hx => h x (by simp [hx])) c h1

theorem createInitialKey_ok_shape (hkdf : HKDF) (sig : BytesInput)
    (cid : NumericInput) (opts : DerivationOptions) (res : JSStr)
    (h : createInitialKeyFromSignature hkdf sig cid opts = .ok res) :
    ∃ a b c, (hkdf a b c (opts.outputLength.getD KEY_LENGTH)).length =
        opts.outputLength.getD KEY_LENGTH ∧
      res = bytesToHex0x (hkdf a b c (opts.outputLength.getD KEY_LENGTH)) := by
  cases hb : toBytes sig with
  | error e =>
    simp only [createInitialKeyFromSignature, hb] at h
    cases h
  | ok sb =>
    simp only [createInitialKeyFromSignature, hb] at h
    split_ifs at h
    cases he : encodeChainId cid (opts.chainIdWidth.getD CHAIN_ID_BYTES) with
    | error e =>
      simp only [he] at h
      cases h
    | ok cb =>
      simp only [he] at h
      split_ifs at h with hout
      cases h
      exact ⟨sb, cb, opts.infoInitialLabel.getD INFO_INITIAL,
        by omega, rfl⟩

theorem deriveKey_ok_shape (hkdf : HKDF) (ik : BytesInput)
    (t : NumericInput) (opts : DerivationOptions) (res : JSStr)
    (h : deriveKeyFromInitialKeyAndTimelock hkdf ik t opts = .ok res) :
    ∃ a b c, (hkdf a b c (opts.outputLength.getD KEY_LENGTH)).length =
        opts.outputLength.getD KEY_LENGTH ∧
      res = bytesToHex0x (hkdf a b c (opts.outputLength.getD KEY_LENGTH)) := by
  cases hb : toBytes ik with
  | error e =>
    simp only [deriveKeyFromInitialKeyAndTimelock, hb] at h
    cases h
  | ok kb =>
    simp only [deriveKeyFromInitialKeyAndTimelock, hb] at h
    split_ifs at h
    cases he : encodeTimelock t (opts.timelockWidth.getD TIMELOCK_BYTES) with
    | error e =>
      simp only [he] at h
      cases h
    | ok tb =>
      simp only [he] at h
      split_ifs at h with hout
      cases h
      exact ⟨kb, tb, opts.infoTimelockLabel.getD INFO_TIMELOCK,
        by omega, rfl⟩

/-- C8: every successful call to either derivation operation returns a
`0x`-prefixed lowercase hex string of exactly `2 * outputLength + 2`
code units, representing exactly `outputLength` bytes. -/
theorem derived_output_format (hkdf : HKDF)
    (hB : ∀ a b c n, ∀ x ∈ hkdf a b c n, x < 256)
    (sig ik : BytesInput) (cid t : NumericInput) (opts : DerivationOptions)
    (res : JSStr)
    (h : createInitialKeyFromSignature hkdf sig cid opts = .ok res ∨
      deriveKeyFromInitialKeyAndTimelock hkdf ik t opts = .ok res) :
    ∃ bs : List Nat, bs.length = opts.outputLength.getD KEY_LENGTH ∧
      res = bytesToHex0x bs ∧
      res.length = 2 * opts.outputLength.getD KEY_LENGTH + 2 ∧
      res.take 2 = [48, 120] ∧
      ∀ c ∈ res.drop 2, isLowerHexCode c = true := by
  have main : ∀ xa xb xc,
      (hkdf xa xb xc (opts.outputLength.getD KEY_LENGTH)).length =
        opts.outputLength.getD KEY_LENGTH →
      res = bytesToHex0x (hkdf xa xb xc (opts.outputLength.getD KEY_LENGTH)) →
      ∃ bs : List Nat, bs.length = opts.outputLength.getD KEY_LENGTH ∧
        res = bytesToHex0x bs ∧
        res.length = 2 * opts.outputLength.getD KEY_LENGTH + 2 ∧
        res.take 2 = [48, 120] ∧
        ∀ c ∈ res.drop 2, isLowerHexCode c = true := by
    intro xa xb xc hlen hres
    subst hres
    refine ⟨hkdf xa xb xc (opts.outputLength.getD KEY_LENGTH), hlen, rfl,
      ?_, rfl, ?_⟩
    · simp only [bytesToHex0x, List.length_cons, hexEncodeBytes_length, hlen]
    · intro c hc
      exact hexEncodeBytes_lower _ (fun x hx => hB xa xb xc _ x hx) c hc
  rcases h with h | h
  · obtain ⟨xa, xb, xc, hlen, hres⟩ :=
      createInitialKey_ok_shape hkdf sig cid opts res h
    exact main xa xb xc hlen hres
  · obtain ⟨xa, xb, xc, hlen, hres⟩ :=
      deriveKey_ok_shape hkdf ik t opts res h
    exact main xa xb xc hlen hres

/-- Witness for C8: a successful initial-key derivation at the default
output length 32. -/
theorem derived_output_format_witness :
    ∃ bs : List Nat,
      bs.length = DerivationOptions.empty.outputLength.getD KEY_LENGTH ∧
      bytesToHex0x (List.replicate 32 0) = bytesToHex0x bs ∧
      (bytesToHex0x (List.replicate 32 0)).length =
        2 * DerivationOptions.empty.outputLength.getD KEY_LENGTH + 2 ∧
      (bytesToHex0x (List.replicate 32 0)).take 2 = [48, 120] ∧
      ∀ c ∈ (bytesToHex0x (List.replicate 32 0)).drop 2,
        isLowerHexCode c = true :=
  derived_output_format (fun _ _ _ n => List.replicate n 0)
    (fun _ _ _ _ x hx => by
      have := List.eq_of_mem_replicate hx
      omega)
    (.bytes (List.replicate 32 170)) (.bytes (List.replicate 32 0))
    (.big 1) (.big 1) DerivationOptions.empty
    (bytesToHex0x (List.replicate 32 0)) (Or.inl (by decide))

example : hexToBytesStrict [48, 120, 97, 98] = .ok [171] := by decide
example : hexToBytesStrict [97, 98] = .ok [171] := by decide
example : hexToBytesStrict [48, 120] = .error .emptyInput := by decide
example : hexToBytesStrict [48, 120, 97] = .error .oddLength := by decide
example : hexToBytesStrict [48, 120, 103, 104] = .error .invalidHex := by decide
example : parseNumericStr [50, 53, 53] = .ok 255 := by decide
example : parseNumericStr [48, 120, 102, 102] = .ok 255 := by decide
example : uintToFixedBE 258 2 = .ok [1, 2] := by decide
example : uintToFixedBE 256 1 = .error .overflow := by decide
example : uintToFixedBE (-1) 2 = .error .negativeValue := by decide
example : encodeTimelock (.big (2 ^ 64)) 8 = .error .rangeExceeded := by decide
example : encodeTimelock (.big (2 ^ 64)) 9 =
    .ok [1, 0, 0, 0, 0, 0, 0, 0, 0] := by decide
